import Mathlib

/-!
Verification development for the App Store review collector
(`streamlit_app.py`).  The Python source is shallowly embedded: pure
functions become Lean functions, the network, the `langdetect` library and
the `pandas` date parser become explicit oracles, Python exceptions become
an `Except` error type, and the on-disk CSV store for one target id becomes
an `Option (List Rec)` value threaded through `update_reviews`.
-/

/-- Parsed JSON documents, as produced by `json.loads` / `resp.json()`.
Objects model the resulting Python `dict`, whose keys are unique, so
association-list lookup by first match agrees with dict lookup.  Numbers
are modelled as integers (the feed carries its numeric-looking data as
strings; fractional literals do not occur in any property below). -/
inductive Json where
  | null : Json
  | bool : Bool → Json
  | num : Int → Json
  | str : String → Json
  | arr : List Json → Json
  | obj : List (String × Json) → Json

/-- Exception classes raised inside `requests` / `http_get_json`.  All three
are subclasses of `requests.RequestException`:
`ConnectionError`/`Timeout` directly, `HTTPError` (from
`raise_for_status`) directly, and `requests.exceptions.JSONDecodeError`
(raised by `Response.json()` on a body that is not valid JSON, since
requests 2.27) via `InvalidJSONError`. -/
inductive ReqErr where
  | connectionError : ReqErr
  | httpError : Nat → ReqErr
  | jsonDecodeError : ReqErr
deriving DecidableEq

/-- Python exceptions that can escape the pipeline functions:
`ValueError` from `extract_app_id`, a `requests.RequestException`
propagated out of `http_get_json` after retry exhaustion, and
`AttributeError` from calling `.get`/`.strip` on a non-dict/non-str
value found in the feed. -/
inductive PyErr where
  | valueError : String → PyErr
  | requestError : ReqErr → PyErr
  | attributeError : PyErr
deriving DecidableEq

/-- Result of one `session.get` call at the transport level: either a
transport-layer exception (connection error / timeout), or a response
with a status code and a body that either parses as JSON or does not. -/
inductive HttpResp where
  | transportError : HttpResp
  | response : Nat → Option Json → HttpResp

/-- Python truthiness (`bool(x)`) restricted to JSON-shaped values. -/
def pyTruthy : Json → Bool
  | .null => false
  | .bool b => b
  | .num n => n != 0
  | .str s => s != ""
  | .arr xs => !xs.isEmpty
  | .obj kvs => !kvs.isEmpty

/-- Python `x or d` for JSON-shaped values. -/
def pyOr (x d : Json) : Json := if pyTruthy x then x else d

mutual
/-- Python `repr` of a JSON-shaped value (quote-escaping inside nested
reprs is not reproduced; no property below inspects the repr of a
container beyond the fact that it is not a digit string). -/
def pyRepr : Json → String
  | .null => "None"
  | .bool true => "True"
  | .bool false => "False"
  | .num n => toString n
  | .str s => "'" ++ s ++ "'"
  | .arr xs => "[" ++ pyReprItems xs ++ "]"
  | .obj kvs => "\x7b" ++ pyReprFields kvs ++ "\x7d"

def pyReprItems : List Json → String
  | [] => ""
  | [x] => pyRepr x
  | x :: y :: rest => pyRepr x ++ ", " ++ pyReprItems (y :: rest)

def pyReprFields : List (String × Json) → String
  | [] => ""
  | [(k, v)] => "'" ++ k ++ "': " ++ pyRepr v
  | (k, v) :: y :: rest => "'" ++ k ++ "': " ++ pyRepr v ++ ", " ++ pyReprFields (y :: rest)
end

/-- Python `str(x)` for JSON-shaped values. -/
def pyStr : Json → String
  | .str s => s
  | j => pyRepr j

/-- Python `s.isdigit()` (ASCII decimal digits; the URLs and feed labels
relevant here are ASCII). -/
def pyIsdigit (s : String) : Bool := s != "" && s.data.all Char.isDigit

/-- Value of a decimal digit string (semantics of Python `int` on an
all-digit string). -/
def natOfDigits (s : String) : Nat :=
  s.data.foldl (fun a c => a * 10 + (c.toNat - 48)) 0

/-- Python `int(x)` as invoked in the source: only reached when
`str(x).isdigit()` holds, hence `x` is an all-digit string or a
non-negative integer. -/
def pyInt : Json → Nat
  | .str s => natOfDigits s
  | .num n => n.toNat
  | _ => 0

/-- Whitespace removal of Python `str.strip()` (over the ASCII whitespace
characters that occur in the data at hand). -/
def stripChars (l : List Char) : List Char :=
  ((l.dropWhile Char.isWhitespace).reverse.dropWhile Char.isWhitespace).reverse

/-- Python `s.strip()` on a string. -/
def pyStripStr (s : String) : String := String.mk (stripChars s.data)

/-- Python `x.strip()`: defined on `str`, raises `AttributeError`
otherwise. -/
def pyStrip : Json → Except PyErr String
  | .str s => .ok (pyStripStr s)
  | _ => .error .attributeError

/-- Python `x.get(k, dflt)`: defined on `dict`, raises `AttributeError`
otherwise. -/
def dictGet (j : Json) (k : String) (dflt : Json) : Except PyErr Json :=
  match j with
  | .obj kvs => .ok (((kvs.find? (fun p => p.1 == k)).map (fun p => p.2)).getD dflt)
  | _ => .error .attributeError

/-! ### SHA-256 over byte lists (`hashlib.sha256(...).hexdigest()`) -/

def w32 (n : Nat) : Nat := n % 4294967296

def add32 (a b : Nat) : Nat := (a + b) % 4294967296

def rotr32 (n x : Nat) : Nat := ((x >>> n) ||| (x <<< (32 - n))) % 4294967296

def not32 (x : Nat) : Nat := 4294967295 - x % 4294967296

def ch32 (x y z : Nat) : Nat := (x &&& y) ^^^ (not32 x &&& z)

def maj32 (x y z : Nat) : Nat := (x &&& y) ^^^ (x &&& z) ^^^ (y &&& z)

def bsig0 (x : Nat) : Nat := rotr32 2 x ^^^ rotr32 13 x ^^^ rotr32 22 x

def bsig1 (x : Nat) : Nat := rotr32 6 x ^^^ rotr32 11 x ^^^ rotr32 25 x

def ssig0 (x : Nat) : Nat := rotr32 7 x ^^^ rotr32 18 x ^^^ (x >>> 3)

def ssig1 (x : Nat) : Nat := rotr32 17 x ^^^ rotr32 19 x ^^^ (x >>> 10)

def sha256K : List Nat :=
  [1116352408, 1899447441, 3049323471, 3921009573, 961987163, 1508970993,
   2453635748, 2870763221, 3624381080, 310598401, 607225278, 1426881987,
   1925078388, 2162078206, 2614888103, 3248222580, 3835390401, 4022224774,
   264347078, 604807628, 770255983, 1249150122, 1555081692, 1996064986,
   2554220882, 2821834349, 2952996808, 3210313671, 3336571891, 3584528711,
   113926993, 338241895, 666307205, 773529912, 1294757372, 1396182291,
   1695183700, 1986661051, 2177026350, 2456956037, 2730485921, 2820302411,
   3259730800, 3345764771, 3516065817, 3600352804, 4094571909, 275423344,
   430227734, 506948616, 659060556, 883997877, 958139571, 1322822218,
   1537002063, 1747873779, 1955562222, 2024104815, 2227730452, 2361852424,
   2428436474, 2756734187, 3204031479, 3329325298]

def sha256H0 : List Nat :=
  [1779033703, 3144134277, 1013904242, 2773480762,
   1359893119, 2600822924, 528734635, 1541459225]

def bytesToWord (b0 b1 b2 b3 : Nat) : Nat := ((b0 * 256 + b1) * 256 + b2) * 256 + b3

def blockWords (block : List Nat) : List Nat :=
  (List.range 16).map fun i =>
    bytesToWord (block.getD (4 * i) 0) (block.getD (4 * i + 1) 0)
      (block.getD (4 * i + 2) 0) (block.getD (4 * i + 3) 0)

def extendOnce (w : List Nat) : List Nat :=
  let n := w.length
  w ++ [add32 (add32 (ssig1 (w.getD (n - 2) 0)) (w.getD (n - 7) 0))
          (add32 (ssig0 (w.getD (n - 15) 0)) (w.getD (n - 16) 0))]

def schedule (block : List Nat) : List Nat :=
  (List.range 48).foldl (fun w _ => extendOnce w) (blockWords block)

def roundStep (st : List Nat) (kw : Nat × Nat) : List Nat :=
  let a := st.getD 0 0
  let b := st.getD 1 0
  let c := st.getD 2 0
  let d := st.getD 3 0
  let e := st.getD 4 0
  let f := st.getD 5 0
  let g := st.getD 6 0
  let h := st.getD 7 0
  let t1 := add32 h (add32 (bsig1 e) (add32 (ch32 e f g) (add32 kw.1 kw.2)))
  let t2 := add32 (bsig0 a) (maj32 a b c)
  [add32 t1 t2, a, b, c, add32 d t1, e, f, g]

def compress (hs : List Nat) (block : List Nat) : List Nat :=
  let w := schedule block
  let final := (List.range 64).foldl
    (fun st i => roundStep st (sha256K.getD i 0, w.getD i 0)) hs
  List.zipWith add32 hs final

def padMsg (msg : List Nat) : List Nat :=
  let L := msg.length
  let z := (119 - L % 64) % 64
  msg ++ 128 :: (List.replicate z 0 ++ (List.range 8).map fun i => (8 * L >>> (8 * (7 - i))) % 256)

def chunks64 : List Nat → List (List Nat)
  | [] => []
  | x :: rest => ((x :: rest).take 64) :: chunks64 ((x :: rest).drop 64)
termination_by l => l.length
decreasing_by simp [List.length_drop]; omega

def sha256 (msg : List Nat) : List Nat :=
  let hs := (chunks64 (padMsg msg)).foldl compress sha256H0
  hs.foldr (fun x acc => (x >>> 24) % 256 :: (x >>> 16) % 256 :: (x >>> 8) % 256 :: x % 256 :: acc) []

def hexChar (n : Nat) : Char := if n < 10 then Char.ofNat (48 + n) else Char.ofNat (87 + n)

def sha256hex (msg : List Nat) : String :=
  String.mk ((sha256 msg).foldr (fun b acc => hexChar (b / 16) :: hexChar (b % 16) :: acc) [])

/-- UTF-8 encoding of one character.  Lean characters are Unicode scalar
values (no lone surrogates), so Python's `errors="ignore"` drops
nothing here. -/
def utf8Char (c : Char) : List Nat :=
  let n := c.toNat
  if n < 128 then [n]
  else if n < 2048 then [192 + n / 64, 128 + n % 64]
  else if n < 65536 then [224 + n / 4096, 128 + (n / 64) % 64, 128 + n % 64]
  else [240 + n / 262144, 128 + (n / 4096) % 64, 128 + (n / 64) % 64, 128 + n % 64]

def utf8Bytes (s : String) : List Nat := s.data.foldr (fun c acc => utf8Char c ++ acc) []

/-! ### Leaf functions of the source -/

/-- Scanner for `re.search(r"id(\d+)", s)` over the character list of the
URL: leftmost position where `i`, `d` and a digit are adjacent wins, and
the capture group is the maximal digit run starting there. -/
def findIdMatch : List Char → Option String
  | x :: d :: c :: r2 =>
    if x = 'i' ∧ d = 'd' ∧ c.isDigit = true then
      some (String.mk (c :: r2.takeWhile Char.isDigit))
    else findIdMatch (d :: c :: r2)
  | _ => none

/-- Embedding of `extract_app_id`. -/
def extract_app_id (app_url : String) : Except PyErr String :=
  match findIdMatch app_url.data with
  | none => .error (.valueError "В ссылке не найдено id<число>.")
  | some s => .ok s

/-- Embedding of `make_app_page_link`. -/
def make_app_page_link (country app_id : String) : String :=
  "https://apps.apple.com/" ++ country ++ "/app/id" ++ app_id

/-- Embedding of `safe_detect_language`; `detect` is the `langdetect`
oracle (`none` models `LangDetectException`). -/
def safe_detect_language (detect : String → Option String) (text : String) : String :=
  let t := pyStripStr text
  if t.length < 10 then "unknown" else (detect t).getD "unknown"

/-- Embedding of `stable_hash_id`. -/
def stable_hash_id (country author date rating title text : String) : String :=
  sha256hex (utf8Bytes
    (country ++ "|" ++ author ++ "|" ++ date ++ "|" ++ rating ++ "|" ++ title ++ "|" ++ text))

/-- Embedding of `iso8601`; `toDT` is the `pd.to_datetime(·, utc=True,
errors="coerce") … isoformat()` oracle (`none` models `NaT`, in which
case the source returns `str(dt_value)`). -/
def iso8601 (toDT : Json → Option String) (v : Json) : String :=
  match toDT v with
  | some s => s
  | none => pyStr v

/-! ### Resilient fetch client (`http_get_json` under the tenacity retry) -/

/-- Membership in the tenacity retry set
`retry_if_exception_type((requests.RequestException,))`.  Every error the
body of `http_get_json` can raise is a `RequestException` subclass; in
particular `requests.exceptions.JSONDecodeError` (requests ≥ 2.27)
inherits from `InvalidJSONError`, which inherits from
`RequestException`. -/
def isRequestException : ReqErr → Bool
  | .connectionError => true
  | .httpError _ => true
  | .jsonDecodeError => true

/-- One undecorated execution of the body of `http_get_json`:
`session.get` (a transport failure raises a `RequestException`), then
`raise_for_status` (raises `HTTPError` for 400 ≤ status < 600), then
`resp.json()` (raises `JSONDecodeError` for a body that is not valid
JSON). -/
def requestOnce (r : HttpResp) : Except ReqErr Json :=
  match r with
  | .transportError => .error .connectionError
  | .response status body =>
    if 400 ≤ status ∧ status < 600 then .error (.httpError status)
    else
      match body with
      | some j => .ok j
      | none => .error .jsonDecodeError

/-- Retry loop of the tenacity decorator: `fuel` is the number of attempts
still allowed (`stop_after_attempt(5)` starts it at 5); on an exception in
the retry set with attempts remaining the call is repeated, otherwise the
last exception is re-raised (`reraise=True`).  The backoff sleeps
(`wait_exponential_jitter(initial=1, max=12)`) do not affect the value
returned and are not modelled. -/
def httpGetJsonAux (responses : Nat → HttpResp) : Nat → Nat → Except ReqErr Json
  | _, 0 => .error .connectionError
  | attempt, fuel + 1 =>
    match requestOnce (responses attempt) with
    | .ok j => .ok j
    | .error e =>
      if isRequestException e ∧ 0 < fuel then httpGetJsonAux responses (attempt + 1) fuel
      else .error e

/-- Embedding of `http_get_json` for one URL; `responses` gives the
transport's answer to each successive attempt. -/
def http_get_json (responses : Nat → HttpResp) : Except ReqErr Json :=
  httpGetJsonAux responses 0 5

/-! ### Paginated review collector (`fetch_reviews_rss`) -/

/-- Review record as built by the collector (the value types of the dict
appended to `reviews`): `rating` is `int(rating)` or the empty string,
modelled as `Option Nat`; `title`, `text` and `author` keep whatever JSON
value the feed supplied. -/
structure Rec where
  review_id : String
  date : String
  rating : Option Nat
  title : Json
  text : Json
  author : Json
  country : String
  language : String
  link : String

/-- Page URL construction of the source (page 1 uses the base feed URL). -/
def pageUrl (country app_id : String) (page : Nat) : String :=
  if page = 1 then
    "https://itunes.apple.com/" ++ country ++ "/rss/customerreviews/id=" ++ app_id ++
      "/sortBy=mostRecent/json"
  else
    "https://itunes.apple.com/" ++ country ++ "/rss/customerreviews/page=" ++ toString page ++
      "/id=" ++ app_id ++ "/sortBy=mostRecent/json"

/-- Embedding of `(data.get("feed", {}) or {}).get("entry", [])`. -/
def getEntries (data : Json) : Except PyErr Json := do
  let f ← dictGet data "feed" (.obj [])
  dictGet (pyOr f (.obj [])) "entry" (.arr [])

def Json.isArr : Json → Bool
  | .arr _ => true
  | _ => false

def Json.alen : Json → Nat
  | .arr xs => xs.length
  | _ => 0

def Json.items : Json → List Json
  | .arr xs => xs
  | _ => []

/-- Exhaustion test of the source:
`not entries or not isinstance(entries, list) or len(entries) <= 1`. -/
def entriesExhausted (entries : Json) : Bool :=
  !pyTruthy entries || !entries.isArr || decide (entries.alen ≤ 1)

/-- Embedding of `(entry.get(k, {}) or {}).get("label", "") or ""`. -/
def getLabel (e : Json) (k : String) : Except PyErr Json := do
  let v ← dictGet e k (.obj [])
  let l ← dictGet (pyOr v (.obj [])) "label" (.str "")
  pure (pyOr l (.str ""))

/-- Embedding of the author extraction
`((entry.get("author", {}) or {}).get("name", {}) or {}).get("label", "") or ""`. -/
def getAuthor (e : Json) : Except PyErr Json := do
  let a ← dictGet e "author" (.obj [])
  let n ← dictGet (pyOr a (.obj [])) "name" (.obj [])
  let l ← dictGet (pyOr n (.obj [])) "label" (.str "")
  pure (pyOr l (.str ""))

/-- Embedding of the link extraction
`(((entry.get("link", {}) or {}).get("attributes", {}) or {}).get("href", "") or "").strip()`. -/
def getLink (e : Json) : Except PyErr String := do
  let a ← dictGet e "link" (.obj [])
  let b ← dictGet (pyOr a (.obj [])) "attributes" (.obj [])
  let c ← dictGet (pyOr b (.obj [])) "href" (.str "")
  pyStrip (pyOr c (.str ""))

/-- Embedding of `int(rating) if str(rating).isdigit() else ""`
(`none` models the empty string). -/
def parseRating (rv : Json) : Option Nat :=
  if pyIsdigit (pyStr rv) then some (pyInt rv) else none

/-- Normalization of one raw feed entry into a review record, mirroring
the body of the entry loop of `fetch_reviews_rss` (extraction order as in
the source; an `AttributeError` anywhere aborts the run). -/
def parseEntry (detect : String → Option String) (toDT : Json → Option String)
    (country app_id : String) (e : Json) : Except PyErr Rec :=
  match getLabel e "id" with
  | .error er => .error er
  | .ok ridJ =>
  match pyStrip ridJ with
  | .error er => .error er
  | .ok rid =>
  match getLink e with
  | .error er => .error er
  | .ok link =>
  match getLabel e "title" with
  | .error er => .error er
  | .ok title =>
  match getLabel e "content" with
  | .error er => .error er
  | .ok text =>
  match getAuthor e with
  | .error er => .error er
  | .ok author =>
  match getLabel e "im:rating" with
  | .error er => .error er
  | .ok ratingJ =>
  match getLabel e "updated" with
  | .error er => .error er
  | .ok dateJ =>
    let dateStr := iso8601 toDT dateJ
    let rid2 := if rid = "" then
        stable_hash_id country (pyStr author) dateStr (pyStr ratingJ) (pyStr title) (pyStr text)
      else rid
    let link2 := if link = "" then make_app_page_link country app_id else link
    .ok { review_id := rid2
          date := dateStr
          rating := parseRating ratingJ
          title := title
          text := text
          author := author
          country := country
          language := safe_detect_language detect (pyStr title ++ "\n" ++ pyStr text)
          link := link2 }

/-- Cap test `max_per_country is not None and processed > max_per_country`. -/
def capExceeded (cap : Option Nat) (processed : Nat) : Bool :=
  match cap with
  | none => false
  | some n => decide (n < processed)

/-- Entry loop over `entries[1:]` for one page.  Returns the accumulated
records, the processed counter, and whether the cap fired (in which case
the source returns from the whole function). -/
def processEntries (detect : String → Option String) (toDT : Json → Option String)
    (country app_id : String) (cap : Option Nat) :
    List Json → List Rec → Nat → Except PyErr (List Rec × Nat × Bool)
  | [], revs, proc => .ok (revs, proc, false)
  | e :: rest, revs, proc =>
    let proc' := proc + 1
    if capExceeded cap proc' then .ok (revs, proc', true)
    else
      match parseEntry detect toDT country app_id e with
      | .error er => .error er
      | .ok r => processEntries detect toDT country app_id cap rest (revs ++ [r]) proc'

/-- Page loop of `fetch_reviews_rss`: `fuel` is the number of loop
iterations left (`range(1, max_pages + 1)`). -/
def fetchPages (detect : String → Option String) (toDT : Json → Option String)
    (net : String → Nat → HttpResp) (app_id country : String) (cap : Option Nat) :
    Nat → Nat → List Rec → Nat → Except PyErr (List Rec)
  | _, 0, revs, _ => .ok revs
  | page, fuel + 1, revs, proc =>
    match http_get_json (net (pageUrl country app_id page)) with
    | .error e => .error (.requestError e)
    | .ok data =>
      match getEntries data with
      | .error er => .error er
      | .ok entries =>
        if entriesExhausted entries then .ok revs
        else
          match processEntries detect toDT country app_id cap (entries.items.drop 1) revs proc with
          | .error er => .error er
          | .ok (revs', _, true) => .ok revs'
          | .ok (revs', proc', false) =>
            fetchPages detect toDT net app_id country cap (page + 1) fuel revs' proc'

/-- Embedding of `fetch_reviews_rss`; `net url i` is the transport's
answer to the `i`-th retry attempt of a GET on `url`. -/
def fetch_reviews_rss (detect : String → Option String) (toDT : Json → Option String)
    (net : String → Nat → HttpResp) (app_id country : String) (cap : Option Nat)
    (maxPages : Nat) : Except PyErr (List Rec) :=
  fetchPages detect toDT net app_id country cap 1 maxPages [] 0

/-! ### Merge/dedup engine (`update_reviews`) -/

/-- Accumulating filter of the source's per-record loop: skip a record
whose `review_id` is already in the existing store or already added in
this run (`newIds` carries the ids added so far). -/
def filterNew (exIds : List String) : List Rec → List String → List Rec
  | [], _ => []
  | r :: rest, newIds =>
    if r.review_id ∈ exIds ∨ r.review_id ∈ newIds then filterNew exIds rest newIds
    else r :: filterNew exIds rest (r.review_id :: newIds)

/-- First-occurrence deduplication by `review_id`
(`drop_duplicates(subset=["review_id"], keep="first")`); `seen` carries
the ids already kept. -/
def dedupFirst : List String → List Rec → List Rec
  | _, [] => []
  | seen, r :: rest =>
    if r.review_id ∈ seen then dedupFirst seen rest
    else r :: dedupFirst (r.review_id :: seen) rest

/-- Sequential collection over the region list (the `for country in
country_list` loop; the session is reused, which the url-keyed `net`
oracle absorbs).  `max_pages=10` as in the call site. -/
def collectAll (detect : String → Option String) (toDT : Json → Option String)
    (net : String → Nat → HttpResp) (app_id : String) :
    List String → Option Nat → Except PyErr (List Rec)
  | [], _ => .ok []
  | c :: cs, cap =>
    match fetch_reviews_rss detect toDT net app_id c cap 10 with
    | .error er => .error er
    | .ok rs =>
      match collectAll detect toDT net app_id cs cap with
      | .error er => .error er
      | .ok rest => .ok (rs ++ rest)

/-- Embedding of `update_reviews`.  The on-disk CSV for the target id is
the `store` argument (`none` models `FileNotFoundError`); the result pairs
the returned DataFrame (or the escaping exception) with the post-run
store.  `to_csv` runs only on the success path, so on an exception the
store is returned unchanged. -/
def update_reviews (detect : String → Option String) (toDT : Json → Option String)
    (net : String → Nat → HttpResp) (app_url : String) (country_list : List String)
    (cap : Option Nat) (store : Option (List Rec)) :
    Except PyErr (List Rec) × Option (List Rec) :=
  match extract_app_id app_url with
  | .error er => (.error er, store)
  | .ok app_id =>
    match collectAll detect toDT net app_id country_list cap with
    | .error er => (.error er, store)
    | .ok fetched =>
      let existing := store.getD []
      let combined :=
        dedupFirst [] (existing ++ filterNew (existing.map Rec.review_id) fetched [])
      (.ok combined, some combined)

/-! ### Concrete oracles and feed data for the end-to-end scenarios -/

/-- Language detector oracle that always fails (never consulted in the
scenarios below: every `title + "\n" + text` is shorter than 10
characters). -/
def d0 : String → Option String := fun _ => none

/-- Date parser oracle for which every raw value is unparseable, so the
source's `iso8601` passes the raw value through. -/
def t0 : Json → Option String := fun _ => none

/-- Feed self-description entry (always skipped by the collector). -/
def sampleHeader : Json := Json.obj [("title", Json.obj [("label", Json.str "header")])]

/-- Raw feed entry with the given review id and rating label. -/
def sampleEntry (rid rating : String) : Json :=
  Json.obj
    [("id", Json.obj [("label", Json.str rid)]),
     ("title", Json.obj [("label", Json.str "t")]),
     ("content", Json.obj [("label", Json.str "x")]),
     ("author", Json.obj [("name", Json.obj [("label", Json.str "a")])]),
     ("im:rating", Json.obj [("label", Json.str rating)]),
     ("updated", Json.obj [("label", Json.str "2024")]),
     ("link", Json.obj [("attributes", Json.obj [("href", Json.str "http://l")])])]

/-- Record the collector produces from `sampleEntry` (oracles `d0`, `t0`). -/
def sampleRec (rid : String) (rating : Option Nat) (country : String) : Rec :=
  { review_id := rid, date := "2024", rating := rating, title := .str "t", text := .str "x",
    author := .str "a", country := country, language := "unknown", link := "http://l" }

/-- Feed page document holding the given entry list. -/
def feedWith (es : List Json) : Json := Json.obj [("feed", Json.obj [("entry", Json.arr es)])]

/-- Transport for the cap scenario: page 1 of target `123456789` in
region `us` answers with 1 header + 6 review entries; everything else
404s (never reached). -/
def netC5 : String → Nat → HttpResp := fun url _ =>
  if url = pageUrl "us" "123456789" 1 then
    .response 200 (some (feedWith
      [sampleHeader, sampleEntry "r1" "5", sampleEntry "r2" "5", sampleEntry "r3" "5",
       sampleEntry "r4" "5", sampleEntry "r5" "5", sampleEntry "r6" "5"]))
  else .response 404 none

/-- Transport for the merge scenario: page 1 of target `1` in region `us`
answers with entries `b`, `c`; every other page is header-only
(exhausted). -/
def netC3 : String → Nat → HttpResp := fun url _ =>
  if url = pageUrl "us" "1" 1 then
    .response 200 (some (feedWith [sampleHeader, sampleEntry "b" "5", sampleEntry "c" "5"]))
  else .response 200 (some (feedWith [sampleHeader]))

/-- Row shape of the pre-existing store in the merge scenario. -/
def storedRec (rid : String) : Rec :=
  { review_id := rid, date := "", rating := none, title := .str "", text := .str "",
    author := .str "", country := "us", language := "unknown", link := "L" }

/-- Pre-existing store holding review ids `a` and `b`. -/
def exAB : List Rec := [storedRec "a", storedRec "b"]

/-- Transport whose first attempt is a 2xx response with a body that is
not valid JSON, and whose later attempts succeed. -/
def netC2 : Nat → HttpResp := fun i =>
  if i = 0 then .response 200 none else .response 200 (some (Json.obj []))

/-- Transport that always fails at the network layer. -/
def netFail : String → Nat → HttpResp := fun _ _ => .transportError

/-- Transport that always answers with a header-only feed page. -/
def netC8 : String → Nat → HttpResp := fun _ _ =>
  .response 200 (some (feedWith [sampleHeader]))

/-! ### Lemmas about the merge/dedup engine -/

lemma mem_map_dedupFirst (x : String) :
    ∀ (l : List Rec) (seen : List String),
      (x ∈ (dedupFirst seen l).map Rec.review_id) ↔
        x ∈ l.map Rec.review_id ∧ x ∉ seen := by
  intro l
  induction l with
  | nil => intro seen; simp [dedupFirst]
  | cons r rest ih =>
    intro seen
    by_cases h : r.review_id ∈ seen
    · by_cases hx : x = r.review_id
      · subst hx; simp [dedupFirst, h, ih, h]
      · simp [dedupFirst, h, ih, hx]
    · by_cases hx : x = r.review_id
      · subst hx; simp [dedupFirst, h]
      · simp [dedupFirst, h, ih, hx]

lemma nodup_map_dedupFirst :
    ∀ (l : List Rec) (seen : List String),
      ((dedupFirst seen l).map Rec.review_id).Nodup := by
  intro l
  induction l with
  | nil => intro seen; simp [dedupFirst]
  | cons r rest ih =>
    intro seen
    by_cases h : r.review_id ∈ seen
    · simpa [dedupFirst, h] using ih seen
    · simp only [dedupFirst, if_neg h, List.map_cons, List.nodup_cons]
      refine ⟨fun hmem => ?_, ih (r.review_id :: seen)⟩
      exact ((mem_map_dedupFirst _ _ _).1 hmem).2 (List.mem_cons_self _ _)

lemma filter_dedupFirst (rid : String) :
    ∀ (l : List Rec) (seen : List String),
      (dedupFirst seen l).filter (fun r => r.review_id == rid) =
        if rid ∈ seen then [] else (l.find? (fun r => r.review_id == rid)).toList := by
  intro l
  induction l with
  | nil => intro seen; by_cases h : rid ∈ seen <;> simp [dedupFirst, h]
  | cons r rest ih =>
    intro seen
    by_cases hr : r.review_id = rid
    · subst hr
      by_cases h : r.review_id ∈ seen
      · simp [dedupFirst, h, ih, List.find?]
      · simp [dedupFirst, h, ih, List.find?, List.filter]
    · have hbe : (r.review_id == rid) = false := beq_eq_false_iff_ne.mpr hr
      by_cases h : r.review_id ∈ seen
      · simp [dedupFirst, h, ih, List.find?, hbe]
      · by_cases h2 : rid ∈ seen
        · simp [dedupFirst, h, ih, List.find?, hbe, h2, List.filter]
        · simp [dedupFirst, h, ih, List.find?, hbe, h2, List.filter]
          exact fun h3 => absurd h3.symm hr

lemma mem_dedupFirst_first {l : List Rec} {r : Rec} (h : r ∈ dedupFirst [] l) :
    l.find? (fun x => x.review_id == r.review_id) = some r := by
  have hf : r ∈ (dedupFirst [] l).filter (fun x => x.review_id == r.review_id) :=
    List.mem_filter.2 ⟨h, by simp⟩
  rw [filter_dedupFirst] at hf
  simp only [List.not_mem_nil, if_false] at hf
  cases hfind : l.find? (fun x => x.review_id == r.review_id) with
  | none => rw [hfind] at hf; simp at hf
  | some fr =>
    rw [hfind] at hf
    simp only [Option.toList_some, List.mem_singleton] at hf
    rw [hf]

lemma dedupFirst_eq_self :
    ∀ (l : List Rec) (seen : List String),
      (l.map Rec.review_id).Nodup → (∀ x ∈ l.map Rec.review_id, x ∉ seen) →
      dedupFirst seen l = l := by
  intro l
  induction l with
  | nil => intro seen _ _; rfl
  | cons r rest ih =>
    intro seen hnd hdisj
    have hr : r.review_id ∉ seen := hdisj _ (by simp)
    have hnd' : (rest.map Rec.review_id).Nodup := (List.nodup_cons.1 (by simpa using hnd)).2
    have hhead : r.review_id ∉ rest.map Rec.review_id :=
      (List.nodup_cons.1 (by simpa using hnd)).1
    rw [dedupFirst, if_neg hr, ih _ hnd']
    intro x hx
    simp only [List.mem_cons]
    push_neg
    exact ⟨fun he => hhead (he ▸ hx), hdisj _ (by simp [hx])⟩

lemma dedupFirst_idem (l : List Rec) :
    dedupFirst [] (dedupFirst [] l) = dedupFirst [] l :=
  dedupFirst_eq_self _ _ (nodup_map_dedupFirst _ _) (by simp)

lemma mem_filterNew_not_ex {exIds : List String} :
    ∀ (l : List Rec) (acc : List String) (r : Rec),
      r ∈ filterNew exIds l acc → r.review_id ∉ exIds := by
  intro l
  induction l with
  | nil => intro acc r h; simp [filterNew] at h
  | cons x rest ih =>
    intro acc r h
    by_cases hc : x.review_id ∈ exIds ∨ x.review_id ∈ acc
    · rw [filterNew, if_pos hc] at h
      exact ih _ _ h
    · rw [filterNew, if_neg hc] at h
      rcases List.mem_cons.1 h with rfl | h'
      · exact (not_or.1 hc).1
      · exact ih _ _ h'

lemma filterNew_covers {exIds : List String} :
    ∀ (l : List Rec) (acc : List String) (r : Rec), r ∈ l →
      r.review_id ∈ exIds ∨ r.review_id ∈ acc ∨
        r.review_id ∈ (filterNew exIds l acc).map Rec.review_id := by
  intro l
  induction l with
  | nil => intro acc r h; simp at h
  | cons x rest ih =>
    intro acc r hr
    rcases List.mem_cons.1 hr with rfl | hr'
    · by_cases hc : r.review_id ∈ exIds ∨ r.review_id ∈ acc
      · tauto
      · right; right; rw [filterNew, if_neg hc]; simp
    · by_cases hc : x.review_id ∈ exIds ∨ x.review_id ∈ acc
      · rw [filterNew, if_pos hc]
        exact ih acc r hr'
      · rcases ih (x.review_id :: acc) r hr' with h1 | h2 | h3
        · exact Or.inl h1
        · rcases List.mem_cons.1 h2 with heq | hacc
          · right; right; rw [filterNew, if_neg hc]; simp [heq]
          · exact Or.inr (Or.inl hacc)
        · right; right; rw [filterNew, if_neg hc]; simp only [List.map_cons, List.mem_cons]
          exact Or.inr h3

lemma filterNew_nil {exIds : List String} :
    ∀ (l : List Rec) (acc : List String),
      (∀ r ∈ l, r.review_id ∈ exIds) → filterNew exIds l acc = [] := by
  intro l
  induction l with
  | nil => intro acc _; rfl
  | cons x rest ih =>
    intro acc hall
    rw [filterNew, if_pos (Or.inl (hall x (by simp)))]
    exact ih _ fun r hr => hall r (by simp [hr])

/-! ### Lemmas about the resilient fetch client -/

lemma isRequestException_true (e : ReqErr) : isRequestException e = true := by
  cases e <;> rfl

lemma httpGetJsonAux_all_fail (responses : Nat → HttpResp) (e : Nat → ReqErr) :
    ∀ (fuel attempt : Nat), 0 < fuel →
      (∀ j, j < fuel → requestOnce (responses (attempt + j)) = .error (e (attempt + j))) →
      httpGetJsonAux responses attempt fuel = .error (e (attempt + fuel - 1)) := by
  intro fuel
  induction fuel with
  | zero => intro attempt h; omega
  | succ n ihn =>
    intro attempt _ hall
    have h0 : requestOnce (responses attempt) = .error (e attempt) := by
      simpa using hall 0 (by omega)
    rw [httpGetJsonAux, h0]
    simp only []
    cases n with
    | zero => simp
    | succ m =>
      rw [if_pos ⟨isRequestException_true _, by omega⟩]
      have hrec := ihn (attempt + 1) (by omega) (fun j hj => by
        have := hall (j + 1) (by omega)
        have harith : attempt + (j + 1) = attempt + 1 + j := by omega
        rwa [harith] at this)
      rw [hrec]
      have harith : attempt + 1 + (m + 1) - 1 = attempt + (m + 1 + 1) - 1 := by omega
      rw [harith]

lemma httpGetJsonAux_first_success (responses : Nat → HttpResp) (v : Json) :
    ∀ (k fuel attempt : Nat), k < fuel →
      (∀ j, j < k → ∃ er, requestOnce (responses (attempt + j)) = .error er) →
      requestOnce (responses (attempt + k)) = .ok v →
      httpGetJsonAux responses attempt fuel = .ok v := by
  intro k
  induction k with
  | zero =>
    intro fuel attempt hk hfails hok
    cases fuel with
    | zero => omega
    | succ f =>
      rw [Nat.add_zero] at hok
      rw [httpGetJsonAux, hok]
  | succ m ih =>
    intro fuel attempt hk hfails hok
    cases fuel with
    | zero => omega
    | succ f =>
      obtain ⟨er, her⟩ := by simpa using hfails 0 (by omega)
      rw [httpGetJsonAux, her]
      simp only []
      rw [if_pos ⟨isRequestException_true _, by omega⟩]
      refine ih f (attempt + 1) (by omega) (fun j hj => ?_) ?_
      · have := hfails (j + 1) (by omega)
        have harith : attempt + (j + 1) = attempt + 1 + j := by omega
        rwa [harith] at this
      · have harith : attempt + (m + 1) = attempt + 1 + m := by omega
        rwa [harith] at hok

/-! ### Lemmas about the collector cap -/

lemma processEntries_len {detect : String → Option String} {toDT : Json → Option String}
    {country app_id : String} {N : Nat} :
    ∀ (es : List Json) (revs : List Rec) (proc : Nat) (revs' : List Rec) (proc' : Nat) (b : Bool),
      revs.length ≤ proc → revs.length ≤ N →
      processEntries detect toDT country app_id (some N) es revs proc = .ok (revs', proc', b) →
      revs'.length ≤ proc' ∧ revs'.length ≤ N := by
  intro es
  induction es with
  | nil =>
    intro revs proc revs' proc' b h1 h2 h
    rw [processEntries] at h
    cases h
    exact ⟨h1, h2⟩
  | cons e rest ih =>
    intro revs proc revs' proc' b h1 h2 h
    rw [processEntries] at h
    by_cases hcap : capExceeded (some N) (proc + 1) = true
    · rw [if_pos hcap] at h
      cases h
      exact ⟨by omega, h2⟩
    · rw [if_neg hcap] at h
      have hle : proc + 1 ≤ N := by
        simp [capExceeded] at hcap
        omega
      cases hp : parseEntry detect toDT country app_id e with
      | error er => rw [hp] at h; exact Except.noConfusion h
      | ok r =>
        rw [hp] at h
        simp only [] at h
        exact ih _ _ _ _ _ (by simp; omega) (by simp; omega) h

lemma fetchPages_len {detect : String → Option String} {toDT : Json → Option String}
    {net : String → Nat → HttpResp} {app_id country : String} {N : Nat} :
    ∀ (fuel page : Nat) (revs : List Rec) (proc : Nat) (out : List Rec),
      revs.length ≤ proc → revs.length ≤ N →
      fetchPages detect toDT net app_id country (some N) page fuel revs proc = .ok out →
      out.length ≤ N := by
  intro fuel
  induction fuel with
  | zero =>
    intro page revs proc out h1 h2 h
    rw [fetchPages] at h
    cases h
    exact h2
  | succ n ih =>
    intro page revs proc out h1 h2 h
    rw [fetchPages] at h
    cases hhttp : http_get_json (net (pageUrl country app_id page)) with
    | error e => rw [hhttp] at h; exact Except.noConfusion h
    | ok data =>
      rw [hhttp] at h
      simp only [] at h
      cases hent : getEntries data with
      | error er => rw [hent] at h; exact Except.noConfusion h
      | ok entries =>
        rw [hent] at h
        simp only [] at h
        by_cases hex : entriesExhausted entries = true
        · rw [if_pos hex] at h; cases h; exact h2
        · rw [if_neg hex] at h
          cases hpe : processEntries detect toDT country app_id (some N)
              (entries.items.drop 1) revs proc with
          | error er => rw [hpe] at h; exact Except.noConfusion h
          | ok res =>
            obtain ⟨revs', proc', b⟩ := res
            have hlen := processEntries_len _ _ _ _ _ _ h1 h2 hpe
            rw [hpe] at h
            cases b with
            | true => cases h; exact hlen.2
            | false => exact ih _ _ _ _ hlen.1 hlen.2 h

/-! ### Lemmas about region iteration and the success path of the merge -/

lemma collectAll_error {detect : String → Option String} {toDT : Json → Option String}
    {net : String → Nat → HttpResp} {app_id : String} {cap : Option Nat} {er : PyErr} :
    ∀ (cl₁ : List String) (c : String) (cl₂ : List String),
      (∀ c' ∈ cl₁, ∃ rs, fetch_reviews_rss detect toDT net app_id c' cap 10 = .ok rs) →
      fetch_reviews_rss detect toDT net app_id c cap 10 = .error er →
      collectAll detect toDT net app_id (cl₁ ++ c :: cl₂) cap = .error er := by
  intro cl₁
  induction cl₁ with
  | nil =>
    intro c cl₂ _ hc
    rw [List.nil_append, collectAll, hc]
  | cons c' cl₁' ih =>
    intro c cl₂ hpre hc
    obtain ⟨rs, hrs⟩ := hpre c' (by simp)
    rw [List.cons_append, collectAll, hrs, ih c cl₂ (fun x hx => hpre x (by simp [hx])) hc]

lemma update_reviews_ok_inv {detect : String → Option String} {toDT : Json → Option String}
    {net : String → Nat → HttpResp} {url : String} {cl : List String} {cap : Option Nat}
    {store : Option (List Rec)} {out : List Rec}
    (h : (update_reviews detect toDT net url cl cap store).1 = .ok out) :
    ∃ aid fetched, extract_app_id url = .ok aid ∧
      collectAll detect toDT net aid cl cap = .ok fetched ∧
      out = dedupFirst []
        (store.getD [] ++ filterNew ((store.getD []).map Rec.review_id) fetched []) ∧
      update_reviews detect toDT net url cl cap store = (.ok out, some out) := by
  cases hx : extract_app_id url with
  | error er =>
    rw [update_reviews, hx] at h
    exact Except.noConfusion h
  | ok aid =>
    rw [update_reviews, hx] at h
    simp only [] at h
    cases hc : collectAll detect toDT net aid cl cap with
    | error er =>
      rw [hc] at h
      exact Except.noConfusion h
    | ok fetched =>
      rw [hc] at h
      simp only [Except.ok.injEq] at h
      refine ⟨aid, fetched, rfl, hc, h.symm, ?_⟩
      rw [update_reviews, hx]
      simp only []
      rw [hc]
      simp only [h]

/-! ### Lemmas about the id scanner -/

lemma findIdMatch_sound :
    ∀ (l : List Char) (s : String), findIdMatch l = some s →
      (∃ a c b, l = a ++ 'i' :: 'd' :: c :: b ∧ c.isDigit = true) ∧
        s ≠ "" ∧ s.data.all Char.isDigit = true := by
  intro l
  induction l with
  | nil => intro s h; simp [findIdMatch] at h
  | cons x rest ih =>
    intro s h
    cases rest with
    | nil => simp [findIdMatch] at h
    | cons d rest2 =>
      cases rest2 with
      | nil => simp [findIdMatch] at h
      | cons c r2 =>
        rw [findIdMatch] at h
        by_cases hcond : x = 'i' ∧ d = 'd' ∧ c.isDigit = true
        · rw [if_pos hcond] at h
          obtain ⟨hx, hd, hc⟩ := hcond
          subst hx; subst hd
          cases h
          refine ⟨⟨[], c, r2, rfl, hc⟩, ?_, ?_⟩
          · intro he
            have := congrArg String.data he
            simp at this
          · simp only [List.all_cons, hc, Bool.true_and]
            rw [List.all_eq_true]
            intro u hu
            exact List.mem_takeWhile_imp hu
        · rw [if_neg hcond] at h
          obtain ⟨⟨a, c', b, hdec, hdig⟩, hs⟩ := ih s h
          exact ⟨⟨x :: a, c', b, by rw [hdec, List.cons_append], hdig⟩, hs⟩

lemma findIdMatch_complete :
    ∀ (a : List Char) (c : Char) (b l : List Char), l = a ++ 'i' :: 'd' :: c :: b →
      c.isDigit = true → findIdMatch l ≠ none := by
  intro a
  induction a with
  | nil =>
    intro c b l hl hc
    subst hl
    rw [List.nil_append, findIdMatch, if_pos ⟨rfl, rfl, hc⟩]
    simp
  | cons x a' ih =>
    intro c b l hl hc
    subst hl
    have htail : findIdMatch (a' ++ 'i' :: 'd' :: c :: b) ≠ none := ih c b _ rfl hc
    obtain ⟨d0, c0, r0, he⟩ : ∃ d0 c0 r0, a' ++ 'i' :: 'd' :: c :: b = d0 :: c0 :: r0 := by
      cases a' with
      | nil => exact ⟨_, _, _, rfl⟩
      | cons y a'' =>
        cases a'' with
        | nil => exact ⟨_, _, _, rfl⟩
        | cons z a''' => exact ⟨_, _, _, rfl⟩
    rw [List.cons_append, he, findIdMatch]
    by_cases hcond : x = 'i' ∧ d0 = 'd' ∧ c0.isDigit = true
    · rw [if_pos hcond]; simp
    · rw [if_neg hcond]
      exact he ▸ htail

/-! ### Nonemptiness of the fallback id and link -/

lemma roundStep_length (st : List Nat) (kw : Nat × Nat) : (roundStep st kw).length = 8 := rfl

lemma foldl_roundStep_length (f : Nat → Nat × Nat) :
    ∀ (l : List Nat) (st : List Nat), st.length = 8 →
      (l.foldl (fun s i => roundStep s (f i)) st).length = 8 := by
  intro l
  induction l with
  | nil => intro st h; exact h
  | cons a t ih => intro st _; exact ih _ (roundStep_length _ _)

lemma compress_length (hs block : List Nat) (h : hs.length = 8) :
    (compress hs block).length = 8 := by
  rw [compress]
  rw [List.length_zipWith, foldl_roundStep_length _ _ _ h, h]
  rfl

lemma foldl_compress_length :
    ∀ (bs : List (List Nat)) (hs : List Nat), hs.length = 8 →
      (bs.foldl compress hs).length = 8 := by
  intro bs
  induction bs with
  | nil => intro hs h; exact h
  | cons b t ih => intro hs h; exact ih _ (compress_length _ _ h)

lemma sha256_ne_nil (msg : List Nat) : sha256 msg ≠ [] := by
  rw [sha256]
  have h8 : ((chunks64 (padMsg msg)).foldl compress sha256H0).length = 8 :=
    foldl_compress_length _ _ rfl
  cases hl : (chunks64 (padMsg msg)).foldl compress sha256H0 with
  | nil => rw [hl] at h8; simp at h8
  | cons a t => simp [List.foldr]

lemma sha256hex_ne_empty (msg : List Nat) : sha256hex msg ≠ "" := by
  rw [sha256hex]
  intro h
  have hd := congrArg String.data h
  simp only [String.data] at hd
  cases hsha : sha256 msg with
  | nil => exact sha256_ne_nil msg hsha
  | cons b t => rw [hsha] at hd; simp [List.foldr] at hd

lemma stable_hash_id_ne_empty (a b c d e f : String) : stable_hash_id a b c d e f ≠ "" :=
  sha256hex_ne_empty _

lemma make_app_page_link_ne_empty (country app_id : String) :
    make_app_page_link country app_id ≠ "" := by
  intro h
  have h2 := congrArg String.length h
  rw [make_app_page_link] at h2
  simp [String.length_append] at h2
  exact absurd h2.1.1.1 (by decide)

/-! ### Inversion of successful entry normalization -/

lemma parseEntry_ok_inv {detect : String → Option String} {toDT : Json → Option String}
    {country app_id : String} {e : Json} {r : Rec}
    (h : parseEntry detect toDT country app_id e = .ok r) :
    ∃ ridJ rid link title text author ratingJ dateJ,
      getLabel e "id" = .ok ridJ ∧ pyStrip ridJ = .ok rid ∧ getLink e = .ok link ∧
      getLabel e "title" = .ok title ∧ getLabel e "content" = .ok text ∧
      getAuthor e = .ok author ∧ getLabel e "im:rating" = .ok ratingJ ∧
      getLabel e "updated" = .ok dateJ ∧
      r = { review_id :=
              if rid = "" then
                stable_hash_id country (pyStr author) (iso8601 toDT dateJ) (pyStr ratingJ)
                  (pyStr title) (pyStr text)
              else rid
            date := iso8601 toDT dateJ
            rating := parseRating ratingJ
            title := title
            text := text
            author := author
            country := country
            language := safe_detect_language detect (pyStr title ++ "\n" ++ pyStr text)
            link := if link = "" then make_app_page_link country app_id else link } := by
  rw [parseEntry] at h
  cases h1 : getLabel e "id" with
  | error er => rw [h1] at h; exact Except.noConfusion h
  | ok ridJ =>
  rw [h1] at h
  simp only [] at h
  cases h2 : pyStrip ridJ with
  | error er => rw [h2] at h; exact Except.noConfusion h
  | ok rid =>
  rw [h2] at h
  simp only [] at h
  cases h3 : getLink e with
  | error er => rw [h3] at h; exact Except.noConfusion h
  | ok link =>
  rw [h3] at h
  simp only [] at h
  cases h4 : getLabel e "title" with
  | error er => rw [h4] at h; exact Except.noConfusion h
  | ok title =>
  rw [h4] at h
  simp only [] at h
  cases h5 : getLabel e "content" with
  | error er => rw [h5] at h; exact Except.noConfusion h
  | ok text =>
  rw [h5] at h
  simp only [] at h
  cases h6 : getAuthor e with
  | error er => rw [h6] at h; exact Except.noConfusion h
  | ok author =>
  rw [h6] at h
  simp only [] at h
  cases h7 : getLabel e "im:rating" with
  | error er => rw [h7] at h; exact Except.noConfusion h
  | ok ratingJ =>
  rw [h7] at h
  simp only [] at h
  cases h8 : getLabel e "updated" with
  | error er => rw [h8] at h; exact Except.noConfusion h
  | ok dateJ =>
  rw [h8] at h
  simp only [Except.ok.injEq] at h
  exact ⟨ridJ, rid, link, title, text, author, ratingJ, dateJ,
    rfl, h2, rfl, rfl, rfl, rfl, rfl, rfl, h.symm⟩

/-! ## Claim theorems -/

/-- C1: if collecting reviews for any region raises a fetch error (a
RequestException surviving the retry loop), `update_reviews` propagates
the error and the store for the target id is returned unchanged — the
merge and persist step runs only after every requested region collected
successfully, so no partial corpus is written. -/
theorem update_reviews_fetch_error_keeps_store
    (detect : String → Option String) (toDT : Json → Option String)
    (net : String → Nat → HttpResp) (url : String) (cl₁ cl₂ : List String) (c : String)
    (cap : Option Nat) (store : Option (List Rec)) (aid : String) (e : ReqErr)
    (hx : extract_app_id url = .ok aid)
    (hpre : ∀ c' ∈ cl₁, ∃ rs, fetch_reviews_rss detect toDT net aid c' cap 10 = .ok rs)
    (hc : fetch_reviews_rss detect toDT net aid c cap 10 = .error (.requestError e)) :
    update_reviews detect toDT net url (cl₁ ++ c :: cl₂) cap store =
      (.error (.requestError e), store) := by
  rw [update_reviews, hx]
  simp only []
  rw [collectAll_error cl₁ c cl₂ hpre hc]

/-- C1 witness: a transport that always fails makes the single-region run
error out with the retry-exhausted connection error and leave the store
untouched. -/
theorem update_reviews_fetch_error_keeps_store_witness :
    extract_app_id "id1" = .ok "1" ∧
    fetch_reviews_rss d0 t0 netFail "1" "us" none 10 = .error (.requestError .connectionError) ∧
    update_reviews d0 t0 netFail "id1" ["us"] none (some exAB) =
      (.error (.requestError .connectionError), some exAB) := by
  refine ⟨rfl, rfl, ?_⟩
  exact update_reviews_fetch_error_keeps_store d0 t0 netFail "id1" [] [] "us" none (some exAB)
    "1" .connectionError rfl (by simp) rfl

/-- C2 counterexample: a 2xx response whose body is not valid JSON makes
`resp.json()` raise `requests.exceptions.JSONDecodeError`, which lies in
the tenacity retry set, so the call IS retried: with the first attempt
malformed and the second attempt valid, `http_get_json` succeeds instead
of raising a fetch error without retrying. -/
theorem http_get_json_malformed_retried_ce :
    netC2 0 = .response 200 none ∧
    requestOnce (netC2 0) = .error .jsonDecodeError ∧
    http_get_json netC2 = .ok (Json.obj []) :=
  ⟨rfl, rfl, rfl⟩

/-- C2 amended: every error the body of `http_get_json` raises — transport
failures, HTTP error statuses, and JSON decoding failures of a 2xx
response — is a `requests.RequestException` and triggers the bounded
retry of up to 5 attempts total; when all 5 attempts fail the last error
propagates to the caller, and the first successful attempt's parsed body
is returned. -/
theorem http_get_json_retry_policy :
    isRequestException .jsonDecodeError = true ∧
    (∀ (responses : Nat → HttpResp) (e : Nat → ReqErr),
      (∀ j, j < 5 → requestOnce (responses j) = .error (e j)) →
      http_get_json responses = .error (e 4)) ∧
    (∀ (responses : Nat → HttpResp) (k : Nat) (v : Json),
      k < 5 → (∀ j, j < k → ∃ er, requestOnce (responses j) = .error er) →
      requestOnce (responses k) = .ok v →
      http_get_json responses = .ok v) := by
  refine ⟨rfl, ?_, ?_⟩
  · intro responses e hall
    have h := httpGetJsonAux_all_fail responses e 5 0 (by omega)
      (fun j hj => by simpa using hall j hj)
    simpa [http_get_json] using h
  · intro responses k v hk hfails hok
    exact httpGetJsonAux_first_success responses v k 5 0 hk
      (fun j hj => by simpa using hfails j hj) (by simpa using hok)

/-- C2 witness: retry exhaustion on a permanently failing transport, and
recovery on the malformed-then-valid transport. -/
theorem http_get_json_retry_policy_witness :
    http_get_json (fun _ => HttpResp.transportError) = .error .connectionError ∧
    http_get_json netC2 = .ok (Json.obj []) := by
  constructor
  · exact http_get_json_retry_policy.2.1 (fun _ => .transportError)
      (fun _ => .connectionError) (fun j hj => rfl)
  · exact http_get_json_retry_policy.2.2 netC2 1 (Json.obj []) (by omega)
      (fun j hj => ⟨.jsonDecodeError, by
        have hj0 : j = 0 := by omega
        subst hj0
        rfl⟩) rfl

/-- C3: a record whose `review_id` already occurs in the existing corpus
appears exactly once in the merged result and the kept row is the first
existing one; concretely, existing ids a, b merged with freshly fetched
ids b, c yield exactly the corpus a, b, c. -/
theorem update_reviews_dedup_keeps_existing :
    (∀ (detect : String → Option String) (toDT : Json → Option String)
       (net : String → Nat → HttpResp) (url : String) (cl : List String) (cap : Option Nat)
       (ex out : List Rec) (rid : String),
       (update_reviews detect toDT net url cl cap (some ex)).1 = .ok out →
       rid ∈ ex.map Rec.review_id →
       ∃ fr, ex.find? (fun x => x.review_id == rid) = some fr ∧
         out.filter (fun x => x.review_id == rid) = [fr]) ∧
    Except.map (fun l => l.map Rec.review_id)
      ((update_reviews d0 t0 netC3 "id1" ["us"] none (some exAB)).1) = .ok ["a", "b", "c"] := by
  refine ⟨?_, rfl⟩
  intro detect toDT net url cl cap ex out rid h hmem
  obtain ⟨aid, fetched, hx, hc, hout, hupd⟩ := update_reviews_ok_inv h
  have hsome : (ex.find? (fun x => x.review_id == rid)).isSome := by
    rw [List.find?_isSome]
    obtain ⟨x, hx1, hx2⟩ := List.mem_map.1 hmem
    exact ⟨x, hx1, by simp [hx2]⟩
  obtain ⟨fr, hfr⟩ := Option.isSome_iff_exists.1 hsome
  refine ⟨fr, hfr, ?_⟩
  rw [hout]
  simp only [Option.getD_some]
  rw [filter_dedupFirst]
  simp only [List.not_mem_nil, if_false]
  rw [List.find?_append, hfr]
  rfl

/-- C3 witness: the merge scenario instantiated at existing id b. -/
theorem update_reviews_dedup_keeps_existing_witness :
    (update_reviews d0 t0 netC3 "id1" ["us"] none (some exAB)).1 =
      .ok [storedRec "a", storedRec "b", sampleRec "c" (some 5) "us"] ∧
    "b" ∈ exAB.map Rec.review_id ∧
    ∃ fr, exAB.find? (fun x => x.review_id == "b") = some fr ∧
      [storedRec "a", storedRec "b", sampleRec "c" (some 5) "us"].filter
        (fun x => x.review_id == "b") = [fr] := by
  refine ⟨rfl, by simp [exAB, storedRec], ?_⟩
  exact update_reviews_dedup_keeps_existing.1 d0 t0 netC3 "id1" ["us"] none exAB _ "b"
    rfl (by simp [exAB, storedRec])

/-- C4: a successful run persists the first-occurrence deduplication of
existing-then-new rows, whose `review_id` values are pairwise distinct,
and every persisted row is the first row bearing its id in merge
order — regardless of region, page or pre-existing duplicates. -/
theorem update_reviews_ids_nodup
    (detect : String → Option String) (toDT : Json → Option String)
    (net : String → Nat → HttpResp) (url : String) (cl : List String) (cap : Option Nat)
    (store : Option (List Rec)) (aid : String) (fetched ex pre : List Rec)
    (hx : extract_app_id url = .ok aid)
    (hc : collectAll detect toDT net aid cl cap = .ok fetched)
    (hex : ex = store.getD [])
    (hpre : pre = ex ++ filterNew (ex.map Rec.review_id) fetched []) :
    update_reviews detect toDT net url cl cap store =
      (.ok (dedupFirst [] pre), some (dedupFirst [] pre)) ∧
    ((dedupFirst [] pre).map Rec.review_id).Nodup ∧
    ∀ r ∈ dedupFirst [] pre, pre.find? (fun x => x.review_id == r.review_id) = some r := by
  subst hex hpre
  refine ⟨?_, nodup_map_dedupFirst _ _, fun r hr => mem_dedupFirst_first hr⟩
  rw [update_reviews, hx]
  simp only []
  rw [hc]

/-- C4 witness: the merge scenario, with the id uniqueness of the
persisted corpus evaluated concretely. -/
theorem update_reviews_ids_nodup_witness :
    extract_app_id "id1" = .ok "1" ∧
    collectAll d0 t0 netC3 "1" ["us"] none =
      .ok [sampleRec "b" (some 5) "us", sampleRec "c" (some 5) "us"] ∧
    ((dedupFirst [] (exAB ++ filterNew (exAB.map Rec.review_id)
      [sampleRec "b" (some 5) "us", sampleRec "c" (some 5) "us"] [])).map Rec.review_id).Nodup := by
  refine ⟨rfl, rfl, ?_⟩
  exact (update_reviews_ids_nodup d0 t0 netC3 "id1" ["us"] none (some exAB) "1"
    [sampleRec "b" (some 5) "us", sampleRec "c" (some 5) "us"] _ _ rfl rfl rfl rfl).2.1

/-- C5: with `max_per_country = N` the collector returns at most N records
for a region however many pages or entries are available; and in the
concrete scenario (one page, 1 header + 6 entries, N = 5) it returns
exactly 5 records, each with `country = "us"`. -/
theorem fetch_reviews_rss_cap :
    (∀ (detect : String → Option String) (toDT : Json → Option String)
       (net : String → Nat → HttpResp) (aid country : String) (N maxPages : Nat)
       (recs : List Rec),
       fetch_reviews_rss detect toDT net aid country (some N) maxPages = .ok recs →
       recs.length ≤ N) ∧
    Except.map (fun l => (l.length, l.map Rec.country))
      (fetch_reviews_rss d0 t0 netC5 "123456789" "us" (some 5) 10) =
      .ok (5, ["us", "us", "us", "us", "us"]) := by
  refine ⟨?_, rfl⟩
  intro detect toDT net aid country N maxPages recs h
  exact fetchPages_len maxPages 1 [] 0 recs (by simp) (by simp) h

/-- C5 witness: the cap bound applied to the concrete 6-entry page. -/
theorem fetch_reviews_rss_cap_witness :
    fetch_reviews_rss d0 t0 netC5 "123456789" "us" (some 5) 10 =
      .ok [sampleRec "r1" (some 5) "us", sampleRec "r2" (some 5) "us",
           sampleRec "r3" (some 5) "us", sampleRec "r4" (some 5) "us",
           sampleRec "r5" (some 5) "us"] ∧
    [sampleRec "r1" (some 5) "us", sampleRec "r2" (some 5) "us", sampleRec "r3" (some 5) "us",
     sampleRec "r4" (some 5) "us", sampleRec "r5" (some 5) "us"].length ≤ 5 := by
  refine ⟨rfl, ?_⟩
  exact fetch_reviews_rss_cap.1 d0 t0 netC5 "123456789" "us" 5 10 _ rfl

/-- C6: running collect plus merge-and-persist a second time against the
same upstream data leaves the corpus unchanged: the second run returns
the same rows and writes back the same store. -/
theorem update_reviews_idempotent
    (detect : String → Option String) (toDT : Json → Option String)
    (net : String → Nat → HttpResp) (url : String) (cl : List String) (cap : Option Nat)
    (store : Option (List Rec)) (out : List Rec)
    (h : (update_reviews detect toDT net url cl cap store).1 = .ok out) :
    (update_reviews detect toDT net url cl cap store).2 = some out ∧
    update_reviews detect toDT net url cl cap (some out) = (.ok out, some out) := by
  obtain ⟨aid, fetched, hx, hc, hout, hupd⟩ := update_reviews_ok_inv h
  constructor
  · rw [hupd]
  · rw [update_reviews, hx]
    simp only []
    rw [hc]
    simp only [Option.getD_some]
    have hsub : ∀ r ∈ fetched, r.review_id ∈ out.map Rec.review_id := by
      intro r hr
      rw [hout, mem_map_dedupFirst]
      refine ⟨?_, by simp⟩
      rcases filterNew_covers fetched [] r hr with h1 | h2 | h3
      · simp only [List.map_append, List.mem_append]
        exact Or.inl h1
      · simp at h2
      · simp only [List.map_append, List.mem_append]
        exact Or.inr h3
    rw [filterNew_nil _ _ hsub, List.append_nil, hout, dedupFirst_idem, ← hout]

/-- C6 witness: the merge scenario run twice; the second run leaves the
3-row corpus untouched. -/
theorem update_reviews_idempotent_witness :
    (update_reviews d0 t0 netC3 "id1" ["us"] none (some exAB)).1 =
      .ok [storedRec "a", storedRec "b", sampleRec "c" (some 5) "us"] ∧
    update_reviews d0 t0 netC3 "id1" ["us"] none
        (some [storedRec "a", storedRec "b", sampleRec "c" (some 5) "us"]) =
      (.ok [storedRec "a", storedRec "b", sampleRec "c" (some 5) "us"],
       some [storedRec "a", storedRec "b", sampleRec "c" (some 5) "us"]) := by
  refine ⟨rfl, ?_⟩
  exact (update_reviews_idempotent d0 t0 netC3 "id1" ["us"] none (some exAB) _ rfl).2

/-- C7 counterexample: the raw rating label "0" is all-digit, so the code
stores the integer 0 in the produced record — a value that is neither in
1..5 nor the empty string, refuting the claimed range. -/
theorem parseEntry_rating_out_of_range_ce :
    Except.map Rec.rating (parseEntry d0 t0 "us" "1" (sampleEntry "z" "0")) = .ok (some 0) ∧
    some 0 ≠ (none : Option Nat) ∧ ¬ (1 ≤ (0 : Nat)) :=
  ⟨rfl, by decide, by decide⟩

/-- C7 amended: the rating of a produced record is `int(raw)` whenever the
string form of the raw rating value is a nonempty all-digit string — with
no clamping to 1..5 — and the empty value otherwise. -/
theorem parseEntry_rating_amended
    (detect : String → Option String) (toDT : Json → Option String)
    (country app_id : String) (e : Json) (r : Rec)
    (h : parseEntry detect toDT country app_id e = .ok r) :
    ∃ rv, getLabel e "im:rating" = .ok rv ∧
      r.rating = (if pyIsdigit (pyStr rv) then some (pyInt rv) else none) := by
  obtain ⟨ridJ, rid, link, title, text, author, ratingJ, dateJ, _, _, _, _, _, _, h7, _, hr⟩ :=
    parseEntry_ok_inv h
  refine ⟨ratingJ, h7, ?_⟩
  rw [hr]
  rfl

/-- C7 witness: the amended statement evaluated on an entry whose rating
label is "7". -/
theorem parseEntry_rating_amended_witness :
    parseEntry d0 t0 "us" "1" (sampleEntry "c" "7") = .ok (sampleRec "c" (some 7) "us") ∧
    ∃ rv, getLabel (sampleEntry "c" "7") "im:rating" = .ok rv ∧
      (sampleRec "c" (some 7) "us").rating =
        (if pyIsdigit (pyStr rv) then some (pyInt rv) else none) := by
  refine ⟨rfl, ?_⟩
  exact parseEntry_rating_amended d0 t0 "us" "1" (sampleEntry "c" "7")
    (sampleRec "c" (some 7) "us") rfl

/-- C8: a fetched page whose entry list is missing, not a list, or has at
most one element (header-only or empty) terminates the region's
pagination without an error, returning the records collected so far. -/
theorem fetchPages_exhaustion
    (detect : String → Option String) (toDT : Json → Option String)
    (net : String → Nat → HttpResp) (app_id country : String) (cap : Option Nat)
    (page fuel : Nat) (revs : List Rec) (proc : Nat) (data entries : Json)
    (hhttp : http_get_json (net (pageUrl country app_id page)) = .ok data)
    (hent : getEntries data = .ok entries)
    (hex : entriesExhausted entries = true) :
    fetchPages detect toDT net app_id country cap page (fuel + 1) revs proc = .ok revs := by
  rw [fetchPages, hhttp]
  simp only []
  rw [hent]
  simp only []
  rw [if_pos hex]

/-- C8 witness: a header-only page ends the region with the empty record
list. -/
theorem fetchPages_exhaustion_witness :
    http_get_json (netC8 (pageUrl "us" "1" 1)) = .ok (feedWith [sampleHeader]) ∧
    getEntries (feedWith [sampleHeader]) = .ok (Json.arr [sampleHeader]) ∧
    entriesExhausted (Json.arr [sampleHeader]) = true ∧
    fetchPages d0 t0 netC8 "1" "us" none 1 10 [] 0 = .ok [] := by
  refine ⟨rfl, rfl, rfl, ?_⟩
  exact fetchPages_exhaustion d0 t0 netC8 "1" "us" none 1 9 [] 0 _ _ rfl rfl rfl

/-- C9: a URL with no substring of the shape id-followed-by-a-digit makes
`update_reviews` raise the invalid-input ValueError with the store
untouched, and — the right-hand side being the same for every transport
oracle — without any network call; a URL that does match yields the digit
string verbatim, leading zeros preserved, as opaque text. -/
theorem extract_app_id_contract :
    (∀ (detect : String → Option String) (toDT : Json → Option String)
       (net : String → Nat → HttpResp) (url : String) (cl : List String)
       (cap : Option Nat) (store : Option (List Rec)),
       (¬ ∃ a c b, url.data = a ++ 'i' :: 'd' :: c :: b ∧ c.isDigit = true) →
       update_reviews detect toDT net url cl cap store =
         (.error (.valueError "В ссылке не найдено id<число>."), store)) ∧
    (∀ url ds : String, extract_app_id url = .ok ds →
       ds ≠ "" ∧ ds.data.all Char.isDigit = true) ∧
    extract_app_id "https://apps.apple.com/us/app/id000123" = .ok "000123" := by
  refine ⟨?_, ?_, rfl⟩
  · intro detect toDT net url cl cap store hno
    have hnone : findIdMatch url.data = none := by
      cases hf : findIdMatch url.data with
      | none => rfl
      | some s => exact absurd (findIdMatch_sound _ _ hf).1 hno
    have hval : extract_app_id url = .error (.valueError "В ссылке не найдено id<число>.") := by
      rw [extract_app_id, hnone]
    rw [update_reviews, hval]
  · intro url ds h
    rw [extract_app_id] at h
    cases hf : findIdMatch url.data with
    | none => rw [hf] at h; exact Except.noConfusion h
    | some s =>
      rw [hf] at h
      simp only [Except.ok.injEq] at h
      exact h ▸ (findIdMatch_sound _ _ hf).2

/-- C9 witness: a URL without the pattern aborts with the store unchanged
on the always-failing transport, and id007 extracts as the opaque digit
string 007. -/
theorem extract_app_id_contract_witness :
    update_reviews d0 t0 netFail "https://apple.com/foo" ["us"] none (some exAB) =
      (.error (.valueError "В ссылке не найдено id<число>."), some exAB) ∧
    extract_app_id "id007" = .ok "007" ∧
    "007" ≠ "" ∧ "007".data.all Char.isDigit = true := by
  have hno : ¬ ∃ a c b,
      ("https://apple.com/foo").data = a ++ 'i' :: 'd' :: c :: b ∧ c.isDigit = true := by
    rintro ⟨a, c, b, hl, hc⟩
    exact findIdMatch_complete a c b _ hl hc rfl
  refine ⟨extract_app_id_contract.1 d0 t0 netFail _ ["us"] none (some exAB) hno, rfl, ?_, ?_⟩
  · exact (extract_app_id_contract.2.1 "id007" "007" rfl).1
  · exact (extract_app_id_contract.2.1 "id007" "007" rfl).2

/-- C10: every record the collector produces carries a nonempty
`review_id` and a nonempty `link`; the fallbacks themselves — the SHA-256
hex digest and the composed app-page URL — are always nonempty strings. -/
theorem parseEntry_id_link_nonempty :
    (∀ (detect : String → Option String) (toDT : Json → Option String)
       (country app_id : String) (e : Json) (r : Rec),
       parseEntry detect toDT country app_id e = .ok r →
       r.review_id ≠ "" ∧ r.link ≠ "") ∧
    (∀ a b c d e f : String, stable_hash_id a b c d e f ≠ "") ∧
    (∀ a b : String, make_app_page_link a b ≠ "") := by
  refine ⟨?_, stable_hash_id_ne_empty, make_app_page_link_ne_empty⟩
  intro detect toDT country app_id e r h
  obtain ⟨ridJ, rid, link, title, text, author, ratingJ, dateJ, _, _, _, _, _, _, _, _, hr⟩ :=
    parseEntry_ok_inv h
  rw [hr]
  constructor
  · simp only []
    by_cases hid : rid = ""
    · rw [if_pos hid]
      exact stable_hash_id_ne_empty _ _ _ _ _ _
    · rw [if_neg hid]
      exact hid
  · simp only []
    by_cases hl : link = ""
    · rw [if_pos hl]
      exact make_app_page_link_ne_empty _ _
    · rw [if_neg hl]
      exact hl

/-- C10 witness: the generic nonemptiness applied to a concrete entry. -/
theorem parseEntry_id_link_nonempty_witness :
    parseEntry d0 t0 "us" "1" (sampleEntry "c" "5") = .ok (sampleRec "c" (some 5) "us") ∧
    (sampleRec "c" (some 5) "us").review_id ≠ "" ∧ (sampleRec "c" (some 5) "us").link ≠ "" := by
  refine ⟨rfl, ?_⟩
  exact parseEntry_id_link_nonempty.1 d0 t0 "us" "1" (sampleEntry "c" "5")
    (sampleRec "c" (some 5) "us") rfl
